import Mathlib

/-!
Shallow embedding of the chiastamp-next proof-verification core
(`src/app/utils/verification.ts`, `src/app/utils/fileHash.ts`,
`src/app/types/proof.ts`, and the `runVerification` / `compareProofs`
logic of `src/app/verify/page.tsx`), together with theorems checking
the natural-language specification against it.

Modelling conventions:
* JS numbers that hold integers are `Int` (or `Nat` where the source
  guarantees non-negativity); `Math.floor` of an integer division is
  `Int.fdiv`.
* Byte arrays (`Uint8Array`) are `List Nat`, each entry < 256 where the
  source guarantees it.
* The Web Crypto SHA-256 primitive (`crypto.subtle.digest`) is an
  external platform capability; it is modelled as an explicit function
  parameter `H : List Nat → List Nat` threaded through the definitions,
  exactly as the spec suggests exposing the hash primitive as an
  injectable port.
* The network (`fetch` of the coinset / block-record APIs) is modelled
  as an explicit oracle record passed to `verifyOnChainVerification`.
* `undefined` / absent optional fields are `Option.none`; a thrown
  exception that the source catches is modelled by an `Option` in the
  decoding helpers.
-/

namespace ChiaStamp

/-- Position enum from src/app/types/proof.ts: serialized as
"left" / "right". -/
inductive Position where
  | Left : Position
  | Right : Position
deriving DecidableEq

/-- ProofStep from src/app/types/proof.ts. -/
structure ProofStep where
  hash : String
  position : Position
deriving DecidableEq

/-- ProofResponse from src/app/types/proof.ts (the proof artifact). -/
structure ProofResponse where
  confirmed : Bool
  header_hash : Option String
  coin_id : Option String
  root_hash : String
  leaf_hash : String
  proof : List ProofStep
  salt : Option String
deriving DecidableEq

/-- VerificationResult from src/app/utils/verification.ts (richest
version, with the optional failureReason / timestamp / blockIndex
fields; the older module's results simply leave them `none`). The
failureReason string union is kept as `Option String` with values
"missing-data", "invalid-data", "api-error". -/
structure VerificationResult where
  step : String
  passed : Bool
  message : String
  timestamp : Option Int := none
  blockIndex : Option Int := none
  failureReason : Option String := none
deriving DecidableEq

/-- formatTimeDelta from src/app/utils/verification.ts: buckets an
elapsed-seconds delta into a human-readable age string. `Math.floor`
of the JS division is floor division `Int.fdiv`. -/
def formatTimeDelta (deltaSeconds : Int) : String :=
  let minutes := deltaSeconds.fdiv 60
  let hours := deltaSeconds.fdiv 3600
  let days := deltaSeconds.fdiv 86400
  let weeks := deltaSeconds.fdiv 604800
  let months := deltaSeconds.fdiv 2592000
  let years := deltaSeconds.fdiv 31536000
  if years > 0 then
    toString years ++ " year" ++ (if years = 1 then "" else "s") ++ " ago"
  else if months > 0 then
    toString months ++ " month" ++ (if months = 1 then "" else "s") ++ " ago"
  else if weeks > 0 then
    toString weeks ++ " week" ++ (if weeks = 1 then "" else "s") ++ " ago"
  else if days > 0 then
    toString days ++ " day" ++ (if days = 1 then "" else "s") ++ " ago"
  else if hours > 0 then
    toString hours ++ " hour" ++ (if hours = 1 then "" else "s") ++ " ago"
  else if minutes > 0 then
    toString minutes ++ " minute" ++ (if minutes = 1 then "" else "s") ++ " ago"
  else
    "just now"

/-- Claim-side age selection, written from the spec sentence: descending
bucket thresholds (years at 31536000 s, months at 2592000 s, weeks at
604800 s, days at 86400 s, hours at 3600 s, minutes at 60 s, otherwise
"just now"), each count the floor of elapsed over the bucket size, with
singular wording exactly when the floored count equals 1. -/
def claimAge (d : Int) : String :=
  if 31536000 ≤ d then
    toString (d.fdiv 31536000) ++ " year" ++ (if d.fdiv 31536000 = 1 then "" else "s") ++ " ago"
  else if 2592000 ≤ d then
    toString (d.fdiv 2592000) ++ " month" ++ (if d.fdiv 2592000 = 1 then "" else "s") ++ " ago"
  else if 604800 ≤ d then
    toString (d.fdiv 604800) ++ " week" ++ (if d.fdiv 604800 = 1 then "" else "s") ++ " ago"
  else if 86400 ≤ d then
    toString (d.fdiv 86400) ++ " day" ++ (if d.fdiv 86400 = 1 then "" else "s") ++ " ago"
  else if 3600 ≤ d then
    toString (d.fdiv 3600) ++ " hour" ++ (if d.fdiv 3600 = 1 then "" else "s") ++ " ago"
  else if 60 ≤ d then
    toString (d.fdiv 60) ++ " minute" ++ (if d.fdiv 60 = 1 then "" else "s") ++ " ago"
  else "just now"

theorem strAppendAssoc (a b c : String) : a ++ b ++ c = a ++ (b ++ c) := by
  apply String.ext
  simp [String.data_append, List.append_assoc]

/-- Facts tying `Int.fdiv` by a positive constant to its defining
division identity, for use with `omega`. -/
theorem fdiv_identity (d k : Int) (hk : 0 < k) :
    k * d.fdiv k + d.fmod k = d ∧ 0 ≤ d.fmod k ∧ d.fmod k < k :=
  ⟨Int.fdiv_add_fmod d k, Int.fmod_nonneg' d hk, Int.fmod_lt_of_pos d hk⟩

/-- C8: for every non-negative elapsed-seconds value, the human-readable
age produced by formatTimeDelta is selected by descending bucket
thresholds (years at 31536000 s, months at 2592000 s, weeks at 604800 s,
days at 86400 s, hours at 3600 s, minutes at 60 s, otherwise
"just now"), each bucket count being the floor of elapsed divided by the
bucket size, with singular wording exactly when the floored count
equals 1. -/
theorem formatTimeDelta_buckets (d : Int) (h : 0 ≤ d) :
    formatTimeDelta d = claimAge d := by
  obtain ⟨a1, b1, c1⟩ := fdiv_identity d 60 (by omega)
  obtain ⟨a2, b2, c2⟩ := fdiv_identity d 3600 (by omega)
  obtain ⟨a3, b3, c3⟩ := fdiv_identity d 86400 (by omega)
  obtain ⟨a4, b4, c4⟩ := fdiv_identity d 604800 (by omega)
  obtain ⟨a5, b5, c5⟩ := fdiv_identity d 2592000 (by omega)
  obtain ⟨a6, b6, c6⟩ := fdiv_identity d 31536000 (by omega)
  have e1 : (0 < d.fdiv 60) = (60 ≤ d) := propext ⟨fun hx => by omega, fun hx => by omega⟩
  have e2 : (0 < d.fdiv 3600) = (3600 ≤ d) := propext ⟨fun hx => by omega, fun hx => by omega⟩
  have e3 : (0 < d.fdiv 86400) = (86400 ≤ d) := propext ⟨fun hx => by omega, fun hx => by omega⟩
  have e4 : (0 < d.fdiv 604800) = (604800 ≤ d) :=
    propext ⟨fun hx => by omega, fun hx => by omega⟩
  have e5 : (0 < d.fdiv 2592000) = (2592000 ≤ d) :=
    propext ⟨fun hx => by omega, fun hx => by omega⟩
  have e6 : (0 < d.fdiv 31536000) = (31536000 ≤ d) :=
    propext ⟨fun hx => by omega, fun hx => by omega⟩
  simp only [formatTimeDelta, claimAge, gt_iff_lt, e1, e2, e3, e4, e5, e6]

/-- Witness for C8 at the spec's Scenario E inputs: 3600 seconds renders
as "1 hour ago" and 3599 seconds as "59 minutes ago". -/
theorem formatTimeDelta_buckets_witness :
    (0 : Int) ≤ 3600 ∧ formatTimeDelta 3600 = claimAge 3600 ∧
      formatTimeDelta 3600 = "1 hour ago" ∧ formatTimeDelta 3599 = "59 minutes ago" :=
  ⟨by decide, formatTimeDelta_buckets 3600 (by decide), by decide, by decide⟩

/-- C10: for every integer delta strictly below 60 seconds, including
every negative value, formatTimeDelta returns exactly "just now": every
floor-divided bucket count is zero or negative, so no unit branch is
taken and no negative count appears in the output. -/
theorem formatTimeDelta_justNow (d : Int) (h : d < 60) :
    formatTimeDelta d = "just now" := by
  obtain ⟨a1, b1, c1⟩ := fdiv_identity d 60 (by omega)
  obtain ⟨a2, b2, c2⟩ := fdiv_identity d 3600 (by omega)
  obtain ⟨a3, b3, c3⟩ := fdiv_identity d 86400 (by omega)
  obtain ⟨a4, b4, c4⟩ := fdiv_identity d 604800 (by omega)
  obtain ⟨a5, b5, c5⟩ := fdiv_identity d 2592000 (by omega)
  obtain ⟨a6, b6, c6⟩ := fdiv_identity d 31536000 (by omega)
  have e1 : (0 < d.fdiv 60) = False := eq_false (by omega)
  have e2 : (0 < d.fdiv 3600) = False := eq_false (by omega)
  have e3 : (0 < d.fdiv 86400) = False := eq_false (by omega)
  have e4 : (0 < d.fdiv 604800) = False := eq_false (by omega)
  have e5 : (0 < d.fdiv 2592000) = False := eq_false (by omega)
  have e6 : (0 < d.fdiv 31536000) = False := eq_false (by omega)
  simp only [formatTimeDelta, gt_iff_lt, e1, e2, e3, e4, e5, e6, if_false]

/-- Witness for C10 at a negative delta (a coin timestamp in the future
of the local clock). -/
theorem formatTimeDelta_justNow_witness :
    (-5 : Int) < 60 ∧ formatTimeDelta (-5) = "just now" :=
  ⟨by decide, formatTimeDelta_justNow (-5) (by decide)⟩

/-- Value of a single hex digit character, as accepted by the JS
`parseInt` with radix 16 (both letter cases). -/
def hexDigitVal (c : Char) : Option Nat :=
  if '0' ≤ c ∧ c ≤ '9' then some (c.toNat - '0'.toNat)
  else if 'a' ≤ c ∧ c ≤ 'f' then some (c.toNat - 'a'.toNat + 10)
  else if 'A' ≤ c ∧ c ≤ 'F' then some (c.toNat - 'A'.toNat + 10)
  else none

/-- Leading run of hex digits, as the JS `parseInt` consumes it (it
parses the longest valid prefix and ignores the rest). -/
def takeHexDigits : List Char → List Nat
  | [] => []
  | c :: rest =>
    match hexDigitVal c with
    | some v => v :: takeHexDigits rest
    | none => []

/-- JS whitespace characters relevant to `parseInt`'s leading-space
skipping (ASCII subset; hex-pair inputs never contain the exotic ones). -/
def jsIsWhitespace (c : Char) : Bool :=
  c = ' ' ∨ c = '\t' ∨ c = '\n' ∨ c = '\r'

/-- JS `parseInt(s, 16)`: skip leading whitespace, optional sign,
optional "0x"/"0X" prefix, then the longest run of hex digits; `none`
models the `NaN` result when no digit is consumed. -/
def parseIntHexChars (cs : List Char) : Option Int :=
  let cs₁ := cs.dropWhile jsIsWhitespace
  let sign : Int :=
    match cs₁ with
    | c :: _ => if c = '-' then -1 else 1
    | [] => 1
  let cs₂ : List Char :=
    match cs₁ with
    | c :: rest => if c = '-' ∨ c = '+' then rest else cs₁
    | [] => cs₁
  let body : List Char :=
    match cs₂ with
    | c0 :: c1 :: rest => if c0 = '0' ∧ (c1 = 'x' ∨ c1 = 'X') then rest else cs₂
    | _ => cs₂
  match takeHexDigits body with
  | [] => none
  | ds => some (sign * ((ds.foldl (fun a v => 16 * a + v) 0 : Nat) : Int))

/-- Storing a JS number into a `Uint8Array` slot: `NaN` becomes 0,
anything else is reduced mod 2^8. -/
def toUint8 : Option Int → Nat
  | none => 0
  | some i => (i % 256).toNat

/-- Adjacent pairs of characters, as `substring(i, i + 2)` slices them
for even-length input. -/
def charPairs : List Char → List (List Char)
  | a :: b :: rest => [a, b] :: charPairs rest
  | _ => []

/-- hexToBytes from src/app/utils/verification.ts. An odd-length input
makes `new Uint8Array(hex.length / 2)` throw a RangeError (non-integer
typed-array length), modelled as `none`; otherwise each two-character
slice goes through `parseInt(_, 16)` and is stored as a byte. -/
def hexToBytes (hex : String) : Option (List Nat) :=
  if hex.length % 2 = 1 then none
  else some ((charPairs hex.data).map fun p => toUint8 (parseIntHexChars p))

/-- JS `b.toString(16)` for a non-negative integer: lowercase base-16
digits. -/
def jsToString16 (b : Nat) : String :=
  String.mk (Nat.toDigits 16 b)

/-- JS `padStart(2, "0")`. -/
def padStart2 (s : String) : String :=
  if s.length < 2 then String.mk (List.replicate (2 - s.length) '0') ++ s else s

/-- bytesToHex from src/app/utils/verification.ts: each byte rendered as
`toString(16)` padded to two characters, joined. -/
def bytesToHex (bytes : List Nat) : String :=
  String.join (bytes.map fun b => padStart2 (jsToString16 b))

/-- Uint8Array.prototype.set: overwrite `src.length` entries of `arr`
starting at `offset` (the source only uses it within bounds). -/
def uint8ArraySet (arr src : List Nat) (offset : Nat) : List Nat :=
  arr.take offset ++ src ++ arr.drop (offset + src.length)

/-- hashPair from src/app/utils/verification.ts: concatenate the two
byte arrays into a fresh zero-filled buffer via two `set` calls and
digest the result with the SHA-256 primitive `H`. -/
def hashPair (H : List Nat → List Nat) (left right : List Nat) : List Nat :=
  let combined :=
    uint8ArraySet (uint8ArraySet (List.replicate (left.length + right.length) 0) left 0)
      right left.length
  H combined

theorem uint8ArraySet_concat (l r : List Nat) :
    uint8ArraySet (uint8ArraySet (List.replicate (l.length + r.length) 0) l 0) r l.length
      = l ++ r := by
  unfold uint8ArraySet
  rw [List.replicate_add]
  simp [List.take_left', List.drop_left', List.drop_eq_nil_of_le]

theorem hashPair_eq (H : List Nat → List Nat) (l r : List Nat) :
    hashPair H l r = H (l ++ r) := by
  unfold hashPair
  rw [uint8ArraySet_concat]

/-- JS String.prototype.toLowerCase, modelled characterwise (the hex
and label strings involved are ASCII, where this agrees with the JS
Unicode lowering). Kept as an explicit char map so that the kernel can
evaluate it in concrete witnesses. -/
def jsToLowerCase (s : String) : String :=
  String.mk (s.data.map Char.toLower)

/-- Message text of the RangeError thrown by the `Uint8Array`
constructor on a non-integer length; the platform's wording is modelled
as a fixed constant (no claim depends on this text). -/
def rangeErrorText : String := "invalid typed array length"

/-- Outcome produced by verifyLocalProof's catch branch (note: it sets
no failureReason). -/
def multiLeafCatch : VerificationResult :=
  { step := "Local Proof (Multi-Leaf)", passed := false,
    message := "Error verifying multi-leaf proof: " ++ rangeErrorText }

/-- The for-loop of verifyLocalProof over the proof steps: decode each
step's sibling hash and fold it into the running digest on the side the
step's position dictates; `none` models the decode exception reaching
the catch. -/
def verifyLocalProofFold (H : List Nat → List Nat) :
    List ProofStep → List Nat → Option (List Nat)
  | [], computed => some computed
  | st :: rest, computed =>
    match hexToBytes st.hash with
    | none => none
    | some sibling =>
      match st.position with
      | Position.Left => verifyLocalProofFold H rest (hashPair H sibling computed)
      | Position.Right => verifyLocalProofFold H rest (hashPair H computed sibling)

/-- verifyLocalProof from src/app/utils/verification.ts, with the
SHA-256 primitive `H` passed as a capability. -/
def verifyLocalProof (H : List Nat → List Nat) (proof : ProofResponse) : VerificationResult :=
  if proof.proof.length = 0 then
    let rootMatchesLeaf := decide (jsToLowerCase proof.root_hash = jsToLowerCase proof.leaf_hash)
    { step := "Local Proof (Single Leaf)", passed := rootMatchesLeaf,
      message :=
        if rootMatchesLeaf then "Single leaf tree: root hash matches leaf hash"
        else "Single leaf tree: root hash (" ++ proof.root_hash ++
          ") does not match leaf hash (" ++ proof.leaf_hash ++ ")" }
  else
    match hexToBytes proof.leaf_hash with
    | none => multiLeafCatch
    | some leafBytes =>
      match verifyLocalProofFold H proof.proof leafBytes with
      | none => multiLeafCatch
      | some computed =>
        let computedHex := bytesToHex computed
        let isValid := decide (jsToLowerCase computedHex = jsToLowerCase proof.root_hash)
        { step := "Local Proof (Multi-Leaf)", passed := isValid,
          message :=
            if isValid then
              "Multi-leaf tree: computed root (" ++ computedHex ++
                ") matches proof root (" ++ proof.root_hash ++ ")"
            else
              "Multi-leaf tree: computed root (" ++ computedHex ++
                ") does not match proof root (" ++ proof.root_hash ++ ")" }

/-- Claim-side fold of C1: starting from the decoded leaf, hash
sibling ++ computed for a Left step and computed ++ sibling for a Right
step, in sequence order. -/
def merkleFold (H : List Nat → List Nat) (leafBytes : List Nat) (steps : List ProofStep) :
    List Nat :=
  steps.foldl
    (fun computed st =>
      match st.position with
      | Position.Left => H ((hexToBytes st.hash).getD [] ++ computed)
      | Position.Right => H (computed ++ (hexToBytes st.hash).getD []))
    leafBytes

theorem verifyLocalProofFold_eq (H : List Nat → List Nat) (steps : List ProofStep)
    (computed : List Nat) (h : ∀ s ∈ steps, (hexToBytes s.hash).isSome) :
    verifyLocalProofFold H steps computed = some (merkleFold H computed steps) := by
  induction steps generalizing computed with
  | nil => rfl
  | cons st rest ih =>
    obtain ⟨sibling, hsib⟩ := Option.isSome_iff_exists.mp (h st (List.mem_cons_self st rest))
    have hrest : ∀ s ∈ rest, (hexToBytes s.hash).isSome :=
      fun s hs => h s (List.mem_cons_of_mem st hs)
    cases hpos : st.position with
    | Left =>
      simp only [verifyLocalProofFold, merkleFold, List.foldl_cons, hsib, hpos,
        hashPair_eq, Option.getD_some]
      exact ih _ hrest
    | Right =>
      simp only [verifyLocalProofFold, merkleFold, List.foldl_cons, hsib, hpos,
        hashPair_eq, Option.getD_some]
      exact ih _ hrest

theorem verifyLocalProofFold_none (H : List Nat → List Nat) (steps : List ProofStep)
    (computed : List Nat) (h : ∃ s ∈ steps, hexToBytes s.hash = none) :
    verifyLocalProofFold H steps computed = none := by
  induction steps generalizing computed with
  | nil => simp at h
  | cons st rest ih =>
    cases hsib : hexToBytes st.hash with
    | none => simp [verifyLocalProofFold, hsib]
    | some sibling =>
      have hrest : ∃ s ∈ rest, hexToBytes s.hash = none := by
        obtain ⟨s, hs, hnone⟩ := h
        rcases List.mem_cons.mp hs with heq | hmem
        · exact absurd (heq ▸ hnone) (by simp [hsib])
        · exact ⟨s, hmem, hnone⟩
      cases hpos : st.position <;> simp [verifyLocalProofFold, hsib, hpos, ih _ hrest]

/-- Stand-in digest primitive used to instantiate the abstract SHA-256
port in concrete witnesses (the claims under test hold for every
primitive, so any concrete one exercises them). -/
def trivialDigest : List Nat → List Nat := fun _ => []

/-- C1: for every proof artifact with a non-empty step sequence whose
leaf and step hashes decode, the local Merkle check computes the root by
folding the steps in sequence order over the decoded leaf — hashing
sibling ++ computed for a Left step and computed ++ sibling for a Right
step — passes iff the hex encoding of the computed value equals
root_hash case-insensitively, and on failure the message carries both
the computed and the claimed root in hex. -/
theorem verifyLocalProof_multiLeaf_fold (H : List Nat → List Nat) (p : ProofResponse)
    (hne : p.proof ≠ [])
    (hleaf : (hexToBytes p.leaf_hash).isSome)
    (hsteps : ∀ s ∈ p.proof, (hexToBytes s.hash).isSome) :
    (verifyLocalProof H p).step = "Local Proof (Multi-Leaf)" ∧
    ((verifyLocalProof H p).passed = true ↔
      jsToLowerCase (bytesToHex (merkleFold H ((hexToBytes p.leaf_hash).getD []) p.proof))
        = jsToLowerCase p.root_hash) ∧
    ((verifyLocalProof H p).passed = false →
      (verifyLocalProof H p).message =
        "Multi-leaf tree: computed root (" ++
          bytesToHex (merkleFold H ((hexToBytes p.leaf_hash).getD []) p.proof) ++
          ") does not match proof root (" ++ p.root_hash ++ ")") := by
  obtain ⟨leafBytes, hlb⟩ := Option.isSome_iff_exists.mp hleaf
  have hlen : ¬ p.proof.length = 0 := by simpa using hne
  have hfold := verifyLocalProofFold_eq H p.proof leafBytes hsteps
  simp only [verifyLocalProof, if_neg hlen, hlb, hfold, Option.getD_some]
  by_cases hv :
      jsToLowerCase (bytesToHex (merkleFold H leafBytes p.proof)) = jsToLowerCase p.root_hash
  · simp [hv]
  · simp [hv]

/-- Witness for C1: a two-step proof under the stand-in digest. -/
def multiLeafExample : ProofResponse :=
  { confirmed := false, header_hash := none, coin_id := none,
    root_hash := "beef", leaf_hash := "ab",
    proof := [⟨"cd", Position.Left⟩, ⟨"ef", Position.Right⟩], salt := none }

theorem verifyLocalProof_multiLeaf_fold_witness :
    (multiLeafExample.proof ≠ [] ∧
      (hexToBytes multiLeafExample.leaf_hash).isSome ∧
      ∀ s ∈ multiLeafExample.proof, (hexToBytes s.hash).isSome) ∧
    ((verifyLocalProof trivialDigest multiLeafExample).step = "Local Proof (Multi-Leaf)" ∧
    ((verifyLocalProof trivialDigest multiLeafExample).passed = true ↔
      jsToLowerCase (bytesToHex (merkleFold trivialDigest
        ((hexToBytes multiLeafExample.leaf_hash).getD []) multiLeafExample.proof))
        = jsToLowerCase multiLeafExample.root_hash) ∧
    ((verifyLocalProof trivialDigest multiLeafExample).passed = false →
      (verifyLocalProof trivialDigest multiLeafExample).message =
        "Multi-leaf tree: computed root (" ++
          bytesToHex (merkleFold trivialDigest
            ((hexToBytes multiLeafExample.leaf_hash).getD []) multiLeafExample.proof) ++
          ") does not match proof root (" ++ multiLeafExample.root_hash ++ ")")) :=
  ⟨⟨by decide, by decide, by decide⟩,
    verifyLocalProof_multiLeaf_fold trivialDigest multiLeafExample (by decide) (by decide)
      (by decide)⟩

/-- C6: with an empty step sequence the local check passes iff leaf_hash
case-insensitively equals root_hash, and the outcome carries the
distinct single-leaf label rather than the multi-leaf one. -/
theorem verifyLocalProof_singleLeaf (H : List Nat → List Nat) (p : ProofResponse)
    (h : p.proof = []) :
    (verifyLocalProof H p).step = "Local Proof (Single Leaf)" ∧
    ((verifyLocalProof H p).passed = true ↔ jsToLowerCase p.leaf_hash = jsToLowerCase p.root_hash) ∧
    ("Local Proof (Single Leaf)" : String) ≠ "Local Proof (Multi-Leaf)" := by
  have hlen : p.proof.length = 0 := by simp [h]
  refine ⟨by simp only [verifyLocalProof, if_pos hlen], ?_, by decide⟩
  simp only [verifyLocalProof, if_pos hlen, decide_eq_true_eq]
  exact eq_comm

/-- Witness for C6 at the spec's Scenario A: leaf "ab12", empty proof,
root "AB12" is a single-leaf pass. -/
def singleLeafExample : ProofResponse :=
  { confirmed := false, header_hash := none, coin_id := none,
    root_hash := "AB12", leaf_hash := "ab12", proof := [], salt := none }

theorem verifyLocalProof_singleLeaf_witness :
    singleLeafExample.proof = [] ∧
    ((verifyLocalProof trivialDigest singleLeafExample).step = "Local Proof (Single Leaf)" ∧
      ((verifyLocalProof trivialDigest singleLeafExample).passed = true ↔
        jsToLowerCase singleLeafExample.leaf_hash = jsToLowerCase singleLeafExample.root_hash) ∧
      ("Local Proof (Single Leaf)" : String) ≠ "Local Proof (Multi-Leaf)") ∧
    (verifyLocalProof trivialDigest singleLeafExample).passed = true :=
  ⟨rfl, verifyLocalProof_singleLeaf trivialDigest singleLeafExample rfl, by decide⟩

/-- Counterexample to C5: with the even-length non-hex leaf and root
"zz" and an empty step sequence, the local check does not fail with
invalid-data at all — it passes (the empty-proof branch never decodes
hex, and `parseInt` laxity means even-length non-hex never throws), so
the claim is false at this input. -/
def malformedHexProof : ProofResponse :=
  { confirmed := false, header_hash := none, coin_id := none,
    root_hash := "zz", leaf_hash := "zz", proof := [], salt := none }

theorem verifyLocalProof_malformed_cex :
    (verifyLocalProof trivialDigest malformedHexProof).passed = true ∧
    (verifyLocalProof trivialDigest malformedHexProof).failureReason = none := by
  constructor <;> decide

/-- C5 as amended: only an odd-length leaf or step hash in the
multi-leaf branch makes decoding throw; the exception is caught locally
and yields a failed outcome whose failureReason is unset (not
invalid-data); no exception escapes the check. -/
theorem verifyLocalProof_malformedHex (H : List Nat → List Nat) (p : ProofResponse)
    (hne : p.proof ≠ [])
    (hodd : hexToBytes p.leaf_hash = none ∨ ∃ s ∈ p.proof, hexToBytes s.hash = none) :
    verifyLocalProof H p = multiLeafCatch ∧ (verifyLocalProof H p).failureReason = none := by
  have hlen : ¬ p.proof.length = 0 := by simpa using hne
  have hres : verifyLocalProof H p = multiLeafCatch := by
    rcases hodd with hl | hsome
    · simp only [verifyLocalProof, if_neg hlen, hl]
    · cases hlb : hexToBytes p.leaf_hash with
      | none => simp only [verifyLocalProof, if_neg hlen, hlb]
      | some lb =>
        simp only [verifyLocalProof, if_neg hlen, hlb,
          verifyLocalProofFold_none H p.proof lb hsome]
  exact ⟨hres, by rw [hres]; rfl⟩

/-- Witness for C5 as amended: an odd-length leaf hash with a non-empty
step list reaches the catch branch. -/
def oddLeafProof : ProofResponse :=
  { confirmed := false, header_hash := none, coin_id := none,
    root_hash := "ab", leaf_hash := "abc", proof := [⟨"ab", Position.Left⟩], salt := none }

theorem verifyLocalProof_malformedHex_witness :
    oddLeafProof.proof ≠ [] ∧
    (verifyLocalProof trivialDigest oddLeafProof = multiLeafCatch ∧
      (verifyLocalProof trivialDigest oddLeafProof).failureReason = none) :=
  ⟨by decide, verifyLocalProof_malformedHex trivialDigest oddLeafProof (by decide)
    (Or.inl (by decide))⟩

/-- Coin object inside a CoinRecord (coinset API shape). -/
structure Coin where
  parent_coin_info : String
  puzzle_hash : String
  amount : Int
deriving DecidableEq

/-- CoinRecord from the coinset API; `coin` is optional because the
source reads it through optional chaining (`record.coin?.`). -/
structure CoinRecord where
  coin : Option Coin
  coinbase : Bool
  confirmed_block_index : Int
  spent : Bool
  spent_block_index : Int
  timestamp : Int
deriving DecidableEq

/-- CoinsetResponse; `coin_records` is optional because the source
guards its absence (`!data.coin_records`). -/
structure CoinsetResponse where
  coin_records : Option (List CoinRecord)
  success : Bool
deriving DecidableEq

/-- BlockRecord from the block-record API (opaque extra fields
dropped). -/
structure BlockRecord where
  header_hash : String
  height : Int
deriving DecidableEq

/-- BlockRecordResponse; `block_record` optional as the source guards
its absence. -/
structure BlockRecordResponse where
  block_record : Option BlockRecord
  success : Bool
deriving DecidableEq

/-- The two sequential `fetch` calls of verifyOnChainVerification,
modelled as an oracle: transport success flag and HTTP status plus the
parsed body for each call. -/
structure NetworkOracle where
  coinsOk : Bool
  coinsStatus : Nat
  coins : CoinsetResponse
  blockOk : Bool
  blockStatus : Nat
  block : BlockRecordResponse

/-- Strip an optional "0x" prefix (`startsWith("0x") ? substring(2)`). -/
def strip0x (s : String) : String :=
  if s.startsWith ("0x") then s.drop 2 else s

/-- JS template interpolation of a possibly-undefined string. -/
def jsStr : Option String → String
  | none => "undefined"
  | some s => s

/-- The missingFields list built by verifyOnChainVerification, in the
source's push order: confirmed, header_hash, coin_id. -/
def missingFields (p : ProofResponse) : List String :=
  (if p.confirmed = true then [] else ["confirmed"]) ++
  (if p.header_hash.isSome then [] else ["header_hash"]) ++
  (if p.coin_id.isSome then [] else ["coin_id"])

/-- The find predicate over coin records: read parent_coin_info through
optional chaining, reject a falsy (missing or empty) value, strip an
optional "0x" prefix and compare to the artifact's coin_id with exact
JS string equality (undefined compares unequal to any string). -/
def coinMatches (coin_id : Option String) (record : CoinRecord) : Bool :=
  match record.coin with
  | none => false
  | some c =>
    if c.parent_coin_info = "" then false
    else decide (some (strip0x c.parent_coin_info) = coin_id)

/-- Outcome for a coinset API body with success != true or absent
coin_records. -/
def coinsetUnsuccessful : VerificationResult :=
  { step := "On-Chain Verification", passed := false,
    message := "Coinset API returned unsuccessful response",
    failureReason := some "api-error" }

/-- Outcome for a block-record API body with success != true or absent
block_record. -/
def blockUnsuccessful : VerificationResult :=
  { step := "On-Chain Verification", passed := false,
    message := "Block record API returned unsuccessful response",
    failureReason := some "api-error" }

/-- verifyOnChainVerification from src/app/utils/verification.ts
(the version carrying failureReason / timestamp / blockIndex). The two
fetches are read from the `net` oracle; a non-ok transport throws,
which the catch converts into an api-error outcome whose message embeds
the thrown error's text. `now` is `Math.floor(Date.now() / 1000)`.
The final header comparison `normalizedBlock === normalizedProof &&
normalizedProof !== undefined && normalizedBlock !== undefined` is
`proof.header_hash.map strip0x = some (strip0x blockHeaderHash)`: the
block side is always a defined string here. -/
def verifyOnChainVerification (net : NetworkOracle) (now : Int) (proof : ProofResponse) :
    VerificationResult :=
  if ¬(proof.confirmed = true ∧ proof.header_hash.isSome ∧ proof.coin_id.isSome) then
    { step := "On-Chain Verification", passed := false,
      message := "Cannot verify on-chain: missing or invalid fields (" ++
        String.intercalate (", ") (missingFields proof) ++ ")",
      failureReason := some "missing-data" }
  else if net.coinsOk = false then
    { step := "On-Chain Verification", passed := false,
      message := "Error verifying on-chain: Coinset API responded with status: " ++
        toString net.coinsStatus,
      failureReason := some "api-error" }
  else if net.coins.success = false ∨ net.coins.coin_records = none then
    coinsetUnsuccessful
  else
    match net.coins.coin_records with
    | none => coinsetUnsuccessful
    | some records =>
      match records.find? (coinMatches proof.coin_id) with
      | some matchingCoin =>
        if net.blockOk = false then
          { step := "On-Chain Verification", passed := false,
            message := "Error verifying on-chain: Block record API responded with status: " ++
              toString net.blockStatus,
            failureReason := some "api-error" }
        else if net.block.success = false ∨ net.block.block_record = none then
          blockUnsuccessful
        else
          match net.block.block_record with
          | none => blockUnsuccessful
          | some blockRecord =>
            let blockHeaderHash := blockRecord.header_hash
            if proof.header_hash.map strip0x = some (strip0x blockHeaderHash) then
              let blockTimestamp := matchingCoin.timestamp
              let timeDelta := now - blockTimestamp
              let timeAgo := formatTimeDelta timeDelta
              { step := "On-Chain Verification", passed := true,
                message := "Proof fully verified on-chain: coin ID " ++ jsStr proof.coin_id ++
                  " found in block " ++ toString matchingCoin.confirmed_block_index ++
                  " with matching header hash and merkle root. File was included in block " ++
                  timeAgo ++ ".",
                timestamp := some blockTimestamp,
                blockIndex := some matchingCoin.confirmed_block_index }
            else
              { step := "On-Chain Verification", passed := false,
                message := "Header hash mismatch: proof header hash (" ++
                  jsStr proof.header_hash ++ ") does not match block header hash (" ++
                  blockHeaderHash ++ ")",
                failureReason := some "invalid-data" }
      | none =>
        { step := "On-Chain Verification", passed := false,
          message := "Coin ID " ++ jsStr proof.coin_id ++
            " not found in coinset for root hash " ++ proof.root_hash,
          failureReason := some "invalid-data" }

/-- C2: when confirmed is not true, or header_hash or coin_id is absent,
the chain-anchor check fails immediately with missing-data, the message
enumerates exactly the absent subset of confirmed / header_hash /
coin_id, and no network call is made (the result does not depend on the
network oracle or the clock). -/
theorem verifyOnChain_missingData (net net' : NetworkOracle) (now now' : Int)
    (p : ProofResponse)
    (h : ¬(p.confirmed = true ∧ p.header_hash.isSome ∧ p.coin_id.isSome)) :
    (verifyOnChainVerification net now p =
      { step := "On-Chain Verification", passed := false,
        message := "Cannot verify on-chain: missing or invalid fields (" ++
          String.intercalate (", ") (missingFields p) ++ ")",
        failureReason := some "missing-data" }) ∧
    verifyOnChainVerification net now p = verifyOnChainVerification net' now' p ∧
    (("confirmed" ∈ missingFields p ↔ ¬p.confirmed = true) ∧
      ("header_hash" ∈ missingFields p ↔ p.header_hash = none) ∧
      ("coin_id" ∈ missingFields p ↔ p.coin_id = none)) := by
  have hfix : ∀ (n : NetworkOracle) (t : Int),
      verifyOnChainVerification n t p =
        { step := "On-Chain Verification", passed := false,
          message := "Cannot verify on-chain: missing or invalid fields (" ++
            String.intercalate (", ") (missingFields p) ++ ")",
          failureReason := some "missing-data" } := by
    intro n t
    simp only [verifyOnChainVerification, if_pos h]
  refine ⟨hfix net now, (hfix net now).trans (hfix net' now').symm, ?_, ?_, ?_⟩
  · by_cases hc : p.confirmed = true <;> simp [missingFields, hc]
  · cases hh : p.header_hash <;> simp [missingFields, hh]
  · cases hk : p.coin_id <;> simp [missingFields, hk]

/-- Witness for C2 at the spec's Scenario C: confirmed true, header_hash
present, coin_id absent fails with missing-data naming only coin_id. -/
def partialProofC : ProofResponse :=
  { confirmed := true, header_hash := some "aa", coin_id := none,
    root_hash := "r0", leaf_hash := "l0", proof := [], salt := none }

/-- Network oracle used by concrete chain-anchor witnesses. -/
def oracleA : NetworkOracle :=
  { coinsOk := true, coinsStatus := 200,
    coins := { coin_records := some [], success := true },
    blockOk := true, blockStatus := 200,
    block := { block_record := none, success := false } }

theorem verifyOnChain_missingData_witness :
    ¬(partialProofC.confirmed = true ∧ partialProofC.header_hash.isSome ∧
        partialProofC.coin_id.isSome) ∧
    ((verifyOnChainVerification oracleA 0 partialProofC =
      { step := "On-Chain Verification", passed := false,
        message := "Cannot verify on-chain: missing or invalid fields (" ++
          String.intercalate (", ") (missingFields partialProofC) ++ ")",
        failureReason := some "missing-data" }) ∧
    verifyOnChainVerification oracleA 0 partialProofC =
      verifyOnChainVerification oracleA 1 partialProofC ∧
    (("confirmed" ∈ missingFields partialProofC ↔ ¬partialProofC.confirmed = true) ∧
      ("header_hash" ∈ missingFields partialProofC ↔ partialProofC.header_hash = none) ∧
      ("coin_id" ∈ missingFields partialProofC ↔ partialProofC.coin_id = none))) ∧
    missingFields partialProofC = ["coin_id"] :=
  ⟨by decide, verifyOnChain_missingData oracleA oracleA 0 1 partialProofC (by decide),
    by decide⟩

/-- C3: with the preconditions holding and both network calls
succeeding, (a) if no returned coin record's parent_coin_info —
stripped of an optional "0x" prefix — equals coin_id exactly, the check
fails with invalid-data naming the expected coin_id and root_hash;
(b) if a coin matches but the proof's and block's header hashes differ
after stripping an optional "0x" prefix, the check fails with
invalid-data showing both header-hash values; (c) the coin matching is
the stated case-sensitive stripped comparison. -/
theorem verifyOnChain_invalidData (net : NetworkOracle) (now : Int) (p : ProofResponse)
    (hdr cid : String) (records : List CoinRecord)
    (h1 : p.confirmed = true) (h2 : p.header_hash = some hdr) (h3 : p.coin_id = some cid)
    (h4 : net.coinsOk = true) (h5 : net.coins.success = true)
    (h6 : net.coins.coin_records = some records) :
    (records.find? (coinMatches p.coin_id) = none →
      verifyOnChainVerification net now p =
        { step := "On-Chain Verification", passed := false,
          message := "Coin ID " ++ cid ++ " not found in coinset for root hash " ++
            p.root_hash,
          failureReason := some "invalid-data" }) ∧
    (∀ c, records.find? (coinMatches p.coin_id) = some c →
      net.blockOk = true → net.block.success = true →
      ∀ br, net.block.block_record = some br →
      strip0x br.header_hash ≠ strip0x hdr →
      verifyOnChainVerification net now p =
        { step := "On-Chain Verification", passed := false,
          message := "Header hash mismatch: proof header hash (" ++ hdr ++
            ") does not match block header hash (" ++ br.header_hash ++ ")",
          failureReason := some "invalid-data" }) ∧
    (∀ r : CoinRecord, coinMatches p.coin_id r = true ↔
      ∃ c, r.coin = some c ∧ c.parent_coin_info ≠ "" ∧ strip0x c.parent_coin_info = cid) := by
  have hpre : ¬¬(p.confirmed = true ∧ p.header_hash.isSome ∧ p.coin_id.isSome) := by
    simp [h1, h2, h3]
  have hx1 : ¬(net.coinsOk = false) := by simp [h4]
  have hx2 : ¬(net.coins.success = false ∨ net.coins.coin_records = none) := by
    simp [h5, h6]
  refine ⟨?_, ?_, ?_⟩
  · intro hnone
    rw [h3] at hnone
    simp only [verifyOnChainVerification, if_neg hpre, if_neg hx1, if_neg hx2, h6, hnone,
      h3, jsStr]
    simp [h1, h2, h5]
  · intro c hfind hbok hbs br hbr hne
    rw [h3] at hfind
    have hx3 : ¬(net.blockOk = false) := by simp [hbok]
    have hx4 : ¬(net.block.success = false ∨ net.block.block_record = none) := by
      simp [hbs, hbr]
    have hne' : ¬(strip0x hdr = strip0x br.header_hash) := fun he => hne he.symm
    simp only [verifyOnChainVerification, if_neg hpre, if_neg hx1, if_neg hx2, h6, hfind,
      if_neg hx3, if_neg hx4, hbr, h2, h3, jsStr, Option.map_some', Option.some.injEq]
    simp [hne', h1, h2, h5, hbs]
  · intro r
    cases hc : r.coin with
    | none => simp [coinMatches, hc]
    | some c =>
      by_cases hpc : c.parent_coin_info = ""
      · simp [coinMatches, hc, hpc]
      · simp [coinMatches, hc, hpc, h3]

/-- Witness for C3: the preconditions hold, the coinset body succeeds
with an empty record list, so the no-matching-coin branch fires. -/
def confirmedProofA : ProofResponse :=
  { confirmed := true, header_hash := some "0xdead", coin_id := some "cafe",
    root_hash := "beef", leaf_hash := "aa", proof := [], salt := none }

theorem verifyOnChain_invalidData_witness :
    (confirmedProofA.confirmed = true ∧ confirmedProofA.header_hash = some "0xdead" ∧
      confirmedProofA.coin_id = some "cafe" ∧ oracleA.coinsOk = true ∧
      oracleA.coins.success = true ∧ oracleA.coins.coin_records = some []) ∧
    (([].find? (coinMatches confirmedProofA.coin_id) = none →
      verifyOnChainVerification oracleA 0 confirmedProofA =
        { step := "On-Chain Verification", passed := false,
          message := "Coin ID " ++ "cafe" ++ " not found in coinset for root hash " ++
            confirmedProofA.root_hash,
          failureReason := some "invalid-data" }) ∧
    (∀ c, [].find? (coinMatches confirmedProofA.coin_id) = some c →
      oracleA.blockOk = true → oracleA.block.success = true →
      ∀ br, oracleA.block.block_record = some br →
      strip0x br.header_hash ≠ strip0x "0xdead" →
      verifyOnChainVerification oracleA 0 confirmedProofA =
        { step := "On-Chain Verification", passed := false,
          message := "Header hash mismatch: proof header hash (" ++ "0xdead" ++
            ") does not match block header hash (" ++ br.header_hash ++ ")",
          failureReason := some "invalid-data" }) ∧
    (∀ r : CoinRecord, coinMatches confirmedProofA.coin_id r = true ↔
      ∃ c, r.coin = some c ∧ c.parent_coin_info ≠ "" ∧
        strip0x c.parent_coin_info = "cafe")) :=
  ⟨⟨rfl, rfl, rfl, rfl, rfl, rfl⟩,
    verifyOnChain_invalidData oracleA 0 confirmedProofA ("0xdead") ("cafe") [] rfl rfl rfl
      rfl rfl rfl⟩

/-- verifyFileHash from src/app/utils/verification.ts. -/
def verifyFileHash (fileHash : String) (proof : ProofResponse) : VerificationResult :=
  let hashMatch := decide (jsToLowerCase fileHash = jsToLowerCase proof.leaf_hash)
  { step := "File Hash Match", passed := hashMatch,
    message :=
      if hashMatch then "File hash matches the proof leaf hash"
      else "File hash (" ++ fileHash ++ ") does not match proof leaf hash (" ++
        proof.leaf_hash ++ ")" }

/-- verifyOnChainCommitment from the synchronous version of
src/app/utils/verification.ts used by the verify page's pipeline: the
same precondition check as the networked verifier, passing outright
when the blockchain fields are present. -/
def verifyOnChainCommitment (proof : ProofResponse) : VerificationResult :=
  if ¬(proof.confirmed = true ∧ proof.header_hash.isSome ∧ proof.coin_id.isSome) then
    { step := "On-Chain Commitment", passed := false,
      message := "Cannot verify on-chain commitment: missing or invalid fields (" ++
        String.intercalate (", ") (missingFields proof) ++ ")" }
  else
    { step := "On-Chain Commitment", passed := true,
      message := "Proof confirmed on-chain with header hash: " ++ jsStr proof.header_hash ++
        " and coin ID: " ++ jsStr proof.coin_id }

/-- VerificationResults from src/app/utils/verification.ts: the 3-slot
state the verify page holds, each slot null until produced. -/
structure VerificationResults where
  fileHashMatch : Option VerificationResult
  localProof : Option VerificationResult
  onChainCommitment : Option VerificationResult
deriving DecidableEq

/-- runVerification from src/app/verify/page.tsx: the short-circuiting
pipeline. The JS guard `if (originalFileHash && proofData)` is the
truthiness of a non-empty hash string and a non-null parsed proof. -/
def runVerification (H : List Nat → List Nat) (originalFileHash : String)
    (proofData : Option ProofResponse) : VerificationResults :=
  if originalFileHash ≠ "" ∧ proofData.isSome then
    match proofData with
    | none => { fileHashMatch := none, localProof := none, onChainCommitment := none }
    | some proofData =>
      let fileHashMatch := verifyFileHash originalFileHash proofData
      if fileHashMatch.passed then
        let localProof := verifyLocalProof H proofData
        if localProof.passed then
          { fileHashMatch := some fileHashMatch, localProof := some localProof,
            onChainCommitment := some (verifyOnChainCommitment proofData) }
        else
          { fileHashMatch := some fileHashMatch, localProof := some localProof,
            onChainCommitment := some
              { step := "On-Chain Commitment", passed := false,
                message := "Cannot verify on-chain commitment: local proof is invalid" } }
      else
        { fileHashMatch := some fileHashMatch,
          localProof := some
            { step := "Local Proof", passed := false,
              message := "Cannot verify local proof: file hash does not match" },
          onChainCommitment := some
            { step := "On-Chain Commitment", passed := false,
              message := "Cannot verify on-chain commitment: file hash does not match" } }
  else
    { fileHashMatch := none, localProof := none, onChainCommitment := none }

/-- Counterexample to C4: at the computed digest "aa" against a proof
whose leaf is "bb", the two downstream slots are synthesized failing
placeholders, but their messages are "Cannot verify local proof: file
hash does not match" and "Cannot verify on-chain commitment: file hash
does not match" — not the exact strings the claim states ("cannot
verify local proof: ..." / "cannot verify on-chain: ..."). -/
def mismatchProof : ProofResponse :=
  { confirmed := false, header_hash := none, coin_id := none,
    root_hash := "bb", leaf_hash := "bb", proof := [], salt := none }

theorem runVerification_placeholder_cex :
    (runVerification trivialDigest ("aa") (some mismatchProof)).localProof =
      some { step := "Local Proof", passed := false,
                 message := "Cannot verify local proof: file hash does not match" } ∧
    (runVerification trivialDigest ("aa") (some mismatchProof)).onChainCommitment =
      some { step := "On-Chain Commitment", passed := false,
                 message := "Cannot verify on-chain commitment: file hash does not match" } ∧
    ("Cannot verify local proof: file hash does not match" : String) ≠
      "cannot verify local proof: file hash does not match" ∧
    ("Cannot verify on-chain commitment: file hash does not match" : String) ≠
      "cannot verify on-chain: file hash does not match" := by
  refine ⟨by decide, by decide, by decide, by decide⟩

/-- C4 as amended: with a non-empty computed digest and a parsed proof
present, the pipeline always fills exactly three outcome slots; when
the file-hash check fails the downstream slots carry exactly the
placeholder messages "Cannot verify local proof: file hash does not
match" and "Cannot verify on-chain commitment: file hash does not
match", and when the local proof fails the on-chain slot carries
"Cannot verify on-chain commitment: local proof is invalid". -/
theorem runVerification_three_slots (H : List Nat → List Nat) (fileHash : String)
    (p : ProofResponse) (hfh : fileHash ≠ "") :
    (runVerification H fileHash (some p)).fileHashMatch.isSome ∧
    (runVerification H fileHash (some p)).localProof.isSome ∧
    (runVerification H fileHash (some p)).onChainCommitment.isSome ∧
    ((verifyFileHash fileHash p).passed = false →
      (runVerification H fileHash (some p)).localProof =
        some { step := "Local Proof", passed := false,
                 message := "Cannot verify local proof: file hash does not match" } ∧
      (runVerification H fileHash (some p)).onChainCommitment =
        some { step := "On-Chain Commitment", passed := false,
                 message := "Cannot verify on-chain commitment: file hash does not match" }) ∧
    ((verifyFileHash fileHash p).passed = true → (verifyLocalProof H p).passed = false →
      (runVerification H fileHash (some p)).onChainCommitment =
        some { step := "On-Chain Commitment", passed := false,
                 message := "Cannot verify on-chain commitment: local proof is invalid" }) := by
  have hcond : fileHash ≠ "" ∧ (some p).isSome := ⟨hfh, rfl⟩
  by_cases hfile : (verifyFileHash fileHash p).passed = true
  · by_cases hlocal : (verifyLocalProof H p).passed = true
    · simp [runVerification, if_pos hcond, hfile, hlocal, hfh]
    · simp only [Bool.not_eq_true] at hlocal
      simp [runVerification, if_pos hcond, hfile, hlocal, hfh]
  · simp only [Bool.not_eq_true] at hfile
    simp [runVerification, if_pos hcond, hfile, hfh]

/-- Witness for C4 as amended, at the counterexample's concrete
input. -/
theorem runVerification_three_slots_witness :
    ("aa" : String) ≠ "" ∧
    ((runVerification trivialDigest ("aa") (some mismatchProof)).fileHashMatch.isSome ∧
    (runVerification trivialDigest ("aa") (some mismatchProof)).localProof.isSome ∧
    (runVerification trivialDigest ("aa") (some mismatchProof)).onChainCommitment.isSome ∧
    ((verifyFileHash ("aa") mismatchProof).passed = false →
      (runVerification trivialDigest ("aa") (some mismatchProof)).localProof =
        some { step := "Local Proof", passed := false,
                 message := "Cannot verify local proof: file hash does not match" } ∧
      (runVerification trivialDigest ("aa") (some mismatchProof)).onChainCommitment =
        some { step := "On-Chain Commitment", passed := false,
                 message := "Cannot verify on-chain commitment: file hash does not match" }) ∧
    ((verifyFileHash ("aa") mismatchProof).passed = true →
      (verifyLocalProof trivialDigest mismatchProof).passed = false →
      (runVerification trivialDigest ("aa") (some mismatchProof)).onChainCommitment =
        some { step := "On-Chain Commitment", passed := false,
                 message := "Cannot verify on-chain commitment: local proof is invalid" })) :=
  ⟨by decide, runVerification_three_slots trivialDigest ("aa") mismatchProof (by decide)⟩

/-- hexStringToUint8Array from src/app/utils/fileHash.ts — textually the
same decoding loop as hexToBytes in verification.ts. -/
def hexStringToUint8Array (hex : String) : Option (List Nat) :=
  if hex.length % 2 = 1 then none
  else some ((charPairs hex.data).map fun p => toUint8 (parseIntHexChars p))

/-- calculateSaltedSHA256 from src/app/utils/fileHash.ts: decode the
salt from hex, build the combined buffer by two `set` calls (content
bytes first, then salt bytes at offset fileBytes.length), digest with
the SHA-256 primitive and hex-encode. An odd-length salt makes the
`Uint8Array` constructor throw (`none`; the caller catches it). -/
def calculateSaltedSHA256 (H : List Nat → List Nat) (fileBytes : List Nat) (salt : String) :
    Option String :=
  match hexStringToUint8Array salt with
  | none => none
  | some saltBuffer =>
    let combinedBuffer :=
      uint8ArraySet
        (uint8ArraySet (List.replicate (fileBytes.length + saltBuffer.length) 0) fileBytes 0)
        saltBuffer fileBytes.length
    some (bytesToHex (H combinedBuffer))

/-- Claim-side strict hex decoding: an even number of characters, each a
hex digit, two characters per byte. -/
def specHexDecodePairs : List Char → Option (List Nat)
  | [] => some []
  | a :: b :: rest =>
    match hexDigitVal a, hexDigitVal b, specHexDecodePairs rest with
    | some va, some vb, some tail => some ((16 * va + vb) :: tail)
    | _, _, _ => none
  | _ => none

/-- Claim-side hex decoding of a salt string. -/
def specHexDecode (s : String) : Option (List Nat) :=
  specHexDecodePairs s.data

/-- Lowercase hex digit predicate for the output-format part of C7. -/
def isLowerHexDigit (c : Char) : Bool :=
  ('0' ≤ c ∧ c ≤ '9') ∨ ('a' ≤ c ∧ c ≤ 'f')

theorem char_toNat_le_of_le {a b : Char} (h : a ≤ b) : a.toNat ≤ b.toNat := by
  rw [Char.le_def, UInt32.le_def, BitVec.le_def] at h
  exact h

theorem hexDigitVal_le_15 {c : Char} {v : Nat} (h : hexDigitVal c = some v) : v ≤ 15 := by
  unfold hexDigitVal at h
  split_ifs at h with h1 h2 h3 <;> injection h with hv <;> subst hv
  · have := char_toNat_le_of_le h1.2
    have h9 : ('9').toNat = 57 := rfl
    have h0 : ('0').toNat = 48 := rfl
    omega
  · have := char_toNat_le_of_le h2.2
    have hf : ('f').toNat = 102 := rfl
    have ha : ('a').toNat = 97 := rfl
    have := char_toNat_le_of_le h2.1
    omega
  · have := char_toNat_le_of_le h3.2
    have hF : ('F').toNat = 70 := rfl
    have hA : ('A').toNat = 65 := rfl
    have := char_toNat_le_of_le h3.1
    omega

/-- A character accepted by hexDigitVal is not one the parseInt
front-end treats specially. -/
theorem hexDigitVal_not_special {c : Char} {v : Nat} (h : hexDigitVal c = some v) :
    jsIsWhitespace c = false ∧ c ≠ '-' ∧ c ≠ '+' ∧ c ≠ 'x' ∧ c ≠ 'X' := by
  have hnone : ∀ c₀ : Char, hexDigitVal c₀ = none → c ≠ c₀ := by
    intro c₀ h₀ he
    rw [he, h₀] at h
    exact Option.noConfusion h
  refine ⟨?_, hnone _ (by decide), hnone _ (by decide), hnone _ (by decide),
    hnone _ (by decide)⟩
  cases hw : jsIsWhitespace c with
  | false => rfl
  | true =>
    exfalso
    unfold jsIsWhitespace at hw
    rcases of_decide_eq_true hw with rfl | rfl | rfl | rfl
    · exact hnone _ (by decide) rfl
    · exact hnone _ (by decide) rfl
    · exact hnone _ (by decide) rfl
    · exact hnone _ (by decide) rfl

theorem parseIntHexChars_pair {a b : Char} {va vb : Nat}
    (ha : hexDigitVal a = some va) (hb : hexDigitVal b = some vb) :
    parseIntHexChars [a, b] = some ((16 * va + vb : Nat) : Int) := by
  obtain ⟨hwa, hma, hpa, _, _⟩ := hexDigitVal_not_special ha
  obtain ⟨_, _, _, hxb, hXb⟩ := hexDigitVal_not_special hb
  unfold parseIntHexChars
  have hdrop : [a, b].dropWhile jsIsWhitespace = [a, b] := by
    simp [List.dropWhile, hwa]
  simp only [hdrop, if_neg hma, if_neg (by simp [hma, hpa] : ¬(a = '-' ∨ a = '+')),
    if_neg (by simp [hxb, hXb] : ¬(a = '0' ∧ (b = 'x' ∨ b = 'X')))]
  simp only [takeHexDigits, ha, hb]
  simp only [List.foldl_cons, List.foldl_nil, Option.some.injEq]
  push_cast
  ring

theorem toUint8_pair {a b : Char} {va vb : Nat}
    (ha : hexDigitVal a = some va) (hb : hexDigitVal b = some vb) :
    toUint8 (parseIntHexChars [a, b]) = 16 * va + vb := by
  rw [parseIntHexChars_pair ha hb]
  have h15a := hexDigitVal_le_15 ha
  have h15b := hexDigitVal_le_15 hb
  show ((((16 * va + vb : Nat) : Int)) % 256).toNat = 16 * va + vb
  omega

/-- The strict claim-side decoder agrees with the parseInt-based loop on
every input it accepts. -/
theorem specPairs_agree (cs : List Char) (bytes : List Nat)
    (h : specHexDecodePairs cs = some bytes) :
    cs.length % 2 = 0 ∧
      (charPairs cs).map (fun p => toUint8 (parseIntHexChars p)) = bytes := by
  match cs, h with
  | [], h =>
    simp only [specHexDecodePairs, Option.some.injEq] at h
    subst h
    simp [charPairs]
  | [a], h =>
    simp [specHexDecodePairs] at h
  | a :: b :: rest, h =>
    cases hva : hexDigitVal a with
    | none => rw [specHexDecodePairs, hva] at h; simp at h
    | some va =>
      cases hvb : hexDigitVal b with
      | none => rw [specHexDecodePairs, hva, hvb] at h; simp at h
      | some vb =>
        cases hrest : specHexDecodePairs rest with
        | none => rw [specHexDecodePairs, hva, hvb, hrest] at h; simp at h
        | some tail =>
          rw [specHexDecodePairs, hva, hvb, hrest] at h
          simp only [Option.some.injEq] at h
          obtain ⟨heven, hmap⟩ := specPairs_agree rest tail hrest
          constructor
          · simp only [List.length_cons]
            omega
          · rw [← h]
            simp only [charPairs, List.map_cons, hmap, toUint8_pair hva hvb]
termination_by cs.length

theorem hexStringToUint8Array_eq_spec (s : String) (bytes : List Nat)
    (h : specHexDecode s = some bytes) :
    hexStringToUint8Array s = some bytes := by
  obtain ⟨heven, hmap⟩ := specPairs_agree s.data bytes h
  unfold hexStringToUint8Array
  have hlen : s.length = s.data.length := by cases s; rfl
  rw [if_neg (by omega : ¬s.length % 2 = 1), hmap]

theorem strLength_data (s : String) : s.length = s.data.length := by
  cases s
  rfl

theorem foldl_append_data (l : List String) (acc : String) :
    (l.foldl (fun r s => r ++ s) acc).data = acc.data ++ (l.map String.data).flatten := by
  induction l generalizing acc with
  | nil => simp
  | cons s rest ih =>
    simp only [List.foldl_cons, ih, List.map_cons, List.flatten_cons, String.data_append,
      List.append_assoc]

theorem stringJoin_data (l : List String) :
    (String.join l).data = (l.map String.data).flatten := by
  have := foldl_append_data l ""
  simpa [String.join] using this

theorem bytesToHex_data (l : List Nat) :
    (bytesToHex l).data = (l.map fun b => (padStart2 (jsToString16 b)).data).flatten := by
  rw [bytesToHex, stringJoin_data, List.map_map]
  rfl

set_option maxRecDepth 4000 in
/-- Each byte below 256 renders as exactly two lowercase hex digits. -/
theorem byteToHex_bounded : ∀ b, b < 256 →
    (padStart2 (jsToString16 b)).length = 2 ∧
      ∀ c ∈ (padStart2 (jsToString16 b)).data, isLowerHexDigit c = true := by decide

theorem flatten_pieces_length : ∀ (l : List Nat), (∀ b ∈ l, b < 256) →
    ((l.map fun b => (padStart2 (jsToString16 b)).data).flatten).length = 2 * l.length := by
  intro l
  induction l with
  | nil => intro _; rfl
  | cons b rest ih =>
    intro h
    have hb := (byteToHex_bounded b (h b (List.mem_cons_self b rest))).1
    rw [strLength_data] at hb
    have hr := ih (fun x hx => h x (List.mem_cons_of_mem b hx))
    simp only [List.map_cons, List.flatten_cons, List.length_append, List.length_cons, hb,
      hr]
    ring

theorem bytesToHex_length (l : List Nat) (h : ∀ b ∈ l, b < 256) :
    (bytesToHex l).length = 2 * l.length := by
  rw [strLength_data, bytesToHex_data]
  exact flatten_pieces_length l h

theorem bytesToHex_lower (l : List Nat) (h : ∀ b ∈ l, b < 256) :
    ∀ c ∈ (bytesToHex l).data, isLowerHexDigit c = true := by
  intro c hc
  rw [bytesToHex_data] at hc
  obtain ⟨piece, hpiece, hcpiece⟩ := List.mem_flatten.mp hc
  obtain ⟨b, hb, rfl⟩ := List.mem_map.mp hpiece
  exact (byteToHex_bounded b (h b hb)).2 c hcpiece

/-- C7: for every file byte string and valid hex salt, the salted digest
is the digest primitive applied to content bytes followed by the decoded
salt bytes, in that order, rendered as lowercase hex with two characters
per byte. -/
theorem calculateSaltedSHA256_spec (H : List Nat → List Nat) (fileBytes : List Nat)
    (salt : String) (saltBytes : List Nat)
    (hsalt : specHexDecode salt = some saltBytes)
    (hH : ∀ b ∈ H (fileBytes ++ saltBytes), b < 256) :
    calculateSaltedSHA256 H fileBytes salt =
      some (bytesToHex (H (fileBytes ++ saltBytes))) ∧
    (bytesToHex (H (fileBytes ++ saltBytes))).length =
      2 * (H (fileBytes ++ saltBytes)).length ∧
    ∀ c ∈ (bytesToHex (H (fileBytes ++ saltBytes))).data, isLowerHexDigit c = true := by
  refine ⟨?_, bytesToHex_length _ hH, bytesToHex_lower _ hH⟩
  unfold calculateSaltedSHA256
  rw [hexStringToUint8Array_eq_spec salt saltBytes hsalt]
  simp only [uint8ArraySet_concat]

/-- Witness for C7: two content bytes and the salt "0aff" under the
stand-in digest. -/
theorem calculateSaltedSHA256_spec_witness :
    specHexDecode ("0aff") = some [10, 255] ∧
    (∀ b ∈ trivialDigest ([1, 2] ++ [10, 255]), b < 256) ∧
    (calculateSaltedSHA256 trivialDigest [1, 2] ("0aff") =
      some (bytesToHex (trivialDigest ([1, 2] ++ [10, 255]))) ∧
    (bytesToHex (trivialDigest ([1, 2] ++ [10, 255]))).length =
      2 * (trivialDigest ([1, 2] ++ [10, 255])).length ∧
    ∀ c ∈ (bytesToHex (trivialDigest ([1, 2] ++ [10, 255]))).data,
      isLowerHexDigit c = true) :=
  ⟨by decide, by decide,
    calculateSaltedSHA256_spec trivialDigest [1, 2] ("0aff") [10, 255] (by decide)
      (by decide)⟩

/-- Serialization of the Position enum value, as JSON.stringify renders
the "left" / "right" string constants. -/
def posStr : Position → String
  | Position.Left => "left"
  | Position.Right => "right"

/-- JSON.stringify string escaping (the Quote algorithm): quote and
backslash get a backslash escape, the common control characters their
two-character escapes, remaining control characters a \u00XX escape,
everything else is verbatim. -/
def jsonEscapeChar (c : Char) : List Char :=
  if c = '"' then ['\\', '"']
  else if c = '\\' then ['\\', '\\']
  else if c = '\x08' then ['\\', 'b']
  else if c = '\t' then ['\\', 't']
  else if c = '\n' then ['\\', 'n']
  else if c = '\x0c' then ['\\', 'f']
  else if c = '\r' then ['\\', 'r']
  else if c.toNat < 32 then
    ['\\', 'u', '0', '0', Nat.digitChar (c.toNat / 16), Nat.digitChar (c.toNat % 16)]
  else [c]

/-- JSON.stringify of a string value. -/
def jsonQuote (s : String) : String :=
  String.mk ('"' :: ((s.data.map jsonEscapeChar).flatten ++ ['"']))

/-- JSON.stringify of one ProofStep object (its two fields in
declaration order, as the typed parse/serialize round trip fixes). -/
def stringifyStep (st : ProofStep) : String :=
  "\x7b\"hash\":" ++ jsonQuote st.hash ++ ",\"position\":" ++
    jsonQuote (posStr st.position) ++ "\x7d"

/-- JSON.stringify of the proof array: elements joined by commas inside
square brackets. -/
def stringifySteps (steps : List ProofStep) : String :=
  "[" ++ String.intercalate (",") (steps.map stringifyStep) ++ "]"

/-- compareProofs from src/app/verify/page.tsx: field-by-field strict
inequality, the step array compared through JSON.stringify. -/
def compareProofs (currentProof updatedProof : ProofResponse) : Bool :=
  decide (currentProof.confirmed ≠ updatedProof.confirmed) ||
  decide (currentProof.header_hash ≠ updatedProof.header_hash) ||
  decide (currentProof.coin_id ≠ updatedProof.coin_id) ||
  decide (currentProof.root_hash ≠ updatedProof.root_hash) ||
  decide (currentProof.leaf_hash ≠ updatedProof.leaf_hash) ||
  decide (stringifySteps currentProof.proof ≠ stringifySteps updatedProof.proof)

/-- A hex string: every character a hex digit, as the artifact data
model types the step hashes. -/
def isHexString (s : String) : Bool :=
  s.data.all fun c => (hexDigitVal c).isSome

theorem hexDigitVal_ne {c : Char} {v : Nat} (h : hexDigitVal c = some v) (c₀ : Char)
    (h₀ : hexDigitVal c₀ = none) : c ≠ c₀ := by
  intro he
  rw [he, h₀] at h
  exact Option.noConfusion h

theorem hexDigitVal_ge_48 {c : Char} {v : Nat} (h : hexDigitVal c = some v) :
    48 ≤ c.toNat := by
  unfold hexDigitVal at h
  split_ifs at h with h1 h2 h3
  · have := char_toNat_le_of_le h1.1
    have h0 : ('0').toNat = 48 := rfl
    omega
  · have := char_toNat_le_of_le h2.1
    have ha : ('a').toNat = 97 := rfl
    omega
  · have := char_toNat_le_of_le h3.1
    have hA : ('A').toNat = 65 := rfl
    omega

theorem jsonEscapeChar_hex {c : Char} {v : Nat} (h : hexDigitVal c = some v) :
    jsonEscapeChar c = [c] := by
  have hge := hexDigitVal_ge_48 h
  unfold jsonEscapeChar
  rw [if_neg (hexDigitVal_ne h _ (by decide)), if_neg (hexDigitVal_ne h _ (by decide)),
    if_neg (hexDigitVal_ne h _ (by decide)), if_neg (hexDigitVal_ne h _ (by decide)),
    if_neg (hexDigitVal_ne h _ (by decide)), if_neg (hexDigitVal_ne h _ (by decide)),
    if_neg (hexDigitVal_ne h _ (by decide)), if_neg (by omega : ¬c.toNat < 32)]

theorem hexChars_escape : ∀ (l : List Char), (∀ c ∈ l, (hexDigitVal c).isSome) →
    (l.map jsonEscapeChar).flatten = l := by
  intro l
  induction l with
  | nil => intro _; rfl
  | cons c rest ih =>
    intro h
    obtain ⟨v, hv⟩ := Option.isSome_iff_exists.mp (h c (List.mem_cons_self c rest))
    have hrest := ih fun x hx => h x (List.mem_cons_of_mem c hx)
    simp only [List.map_cons, List.flatten_cons, jsonEscapeChar_hex hv, hrest,
      List.singleton_append]

theorem hexString_escape (s : String) (h : isHexString s = true) :
    (s.data.map jsonEscapeChar).flatten = s.data := by
  unfold isHexString at h
  rw [List.all_eq_true] at h
  exact hexChars_escape s.data h

theorem hexString_no_quote (s : String) (h : isHexString s = true) : '"' ∉ s.data := by
  unfold isHexString at h
  rw [List.all_eq_true] at h
  intro hmem
  have := h _ hmem
  obtain ⟨v, hv⟩ := Option.isSome_iff_exists.mp this
  exact hexDigitVal_ne hv ('"') (by decide) rfl

/-- Splitting a quote-delimited segment: two quote-free prefixes closed
by a quote determine each other. -/
theorem append_quote_inj (s1 : List Char) : ∀ (s2 t1 t2 : List Char), '"' ∉ s1 → '"' ∉ s2 →
    s1 ++ '"' :: t1 = s2 ++ '"' :: t2 → s1 = s2 ∧ t1 = t2 := by
  induction s1 with
  | nil =>
    intro s2 t1 t2 _ h2 h
    cases s2 with
    | nil => simpa using h
    | cons b bs =>
      simp only [List.nil_append, List.cons_append, List.cons.injEq] at h
      exfalso
      apply h2
      rw [← h.1]
      exact List.mem_cons_self _ _
  | cons a as ih =>
    intro s2 t1 t2 h1 h2 h
    cases s2 with
    | nil =>
      simp only [List.cons_append, List.nil_append, List.cons.injEq] at h
      exfalso
      apply h1
      rw [h.1]
      exact List.mem_cons_self _ _
    | cons b bs =>
      simp only [List.cons_append, List.cons.injEq] at h
      obtain ⟨hab, htail⟩ := h
      have h1' : '"' ∉ as := fun hx => h1 (List.mem_cons_of_mem a hx)
      have h2' : '"' ∉ bs := fun hx => h2 (List.mem_cons_of_mem b hx)
      obtain ⟨hs, ht⟩ := ih bs t1 t2 h1' h2' htail
      exact ⟨by rw [hab, hs], ht⟩

theorem posStr_escape (p : Position) :
    ((posStr p).data.map jsonEscapeChar).flatten = (posStr p).data := by
  cases p <;> decide

theorem posStr_no_quote (p : Position) : '"' ∉ (posStr p).data := by
  cases p <;> decide

/-- The serialized step laid out as literal segments around the two
escaped field values. -/
theorem stringifyStep_data (st : ProofStep) :
    (stringifyStep st).data =
      ("\x7b\"hash\":").data ++ ('"' :: ((st.hash.data.map jsonEscapeChar).flatten ++
        '"' :: ((",\"position\":").data ++ ('"' :: (((posStr st.position).data.map
          jsonEscapeChar).flatten ++ '"' :: ['\x7d']))))) := by
  unfold stringifyStep jsonQuote
  simp only [String.data_append]
  have hmk : ∀ l : List Char, (String.mk l).data = l := fun _ => rfl
  rw [hmk, hmk]
  simp only [List.append_assoc, List.cons_append, List.nil_append]

theorem stringifyStep_inj_append (s1 s2 : ProofStep) (r1 r2 : List Char)
    (h1 : isHexString s1.hash = true) (h2 : isHexString s2.hash = true)
    (h : (stringifyStep s1).data ++ r1 = (stringifyStep s2).data ++ r2) :
    s1 = s2 ∧ r1 = r2 := by
  rw [stringifyStep_data, stringifyStep_data, hexString_escape _ h1, hexString_escape _ h2,
    posStr_escape, posStr_escape] at h
  simp only [List.append_assoc, List.cons_append, List.nil_append] at h
  simp only [List.cons.injEq, true_and] at h
  obtain ⟨hhash, hrest⟩ := append_quote_inj s1.hash.data s2.hash.data _ _
    (hexString_no_quote _ h1) (hexString_no_quote _ h2) h
  simp only [List.cons.injEq, true_and] at hrest
  obtain ⟨hpos, htail⟩ := append_quote_inj (posStr s1.position).data
    (posStr s2.position).data _ _ (posStr_no_quote _) (posStr_no_quote _) hrest
  simp only [List.cons.injEq, true_and] at htail
  refine ⟨?_, htail⟩
  have hhash' : s1.hash = s2.hash := String.ext hhash
  have hpos' : s1.position = s2.position := by
    cases hp1 : s1.position <;> cases hp2 : s2.position <;>
      first
      | rfl
      | (rw [hp1, hp2] at hpos; exact absurd hpos (by decide))
  cases s1
  cases s2
  simp only [ProofStep.mk.injEq]
  exact ⟨hhash', hpos'⟩

/-- The comma-separated tail of the serialized step array. -/
def encTail : List ProofStep → List Char
  | [] => [']']
  | s :: rest => ',' :: ((stringifyStep s).data ++ encTail rest)

theorem encTail_eq : ∀ (rest : List ProofStep),
    ((rest.map stringifyStep).map fun a => (",").data ++ a.data).flatten ++ [']'] =
      encTail rest := by
  intro rest
  induction rest with
  | nil => rfl
  | cons t r ih =>
    simp only [List.map_cons, List.flatten_cons, encTail, List.append_assoc, ih]
    rfl

theorem intercalate_go_data (sep : String) : ∀ (as : List String) (acc : String),
    (String.intercalate.go acc sep as).data =
      acc.data ++ (as.map fun a => sep.data ++ a.data).flatten := by
  intro as
  induction as with
  | nil => intro acc; simp [String.intercalate.go]
  | cons a rest ih =>
    intro acc
    simp [String.intercalate.go, ih, String.data_append, List.append_assoc]

theorem stringifySteps_data_nil : (stringifySteps []).data = ['[', ']'] := by decide

theorem stringifySteps_data_cons (s : ProofStep) (rest : List ProofStep) :
    (stringifySteps (s :: rest)).data = '[' :: ((stringifyStep s).data ++ encTail rest) := by
  unfold stringifySteps
  simp only [List.map_cons, String.intercalate, String.data_append, intercalate_go_data]
  rw [← encTail_eq rest]
  simp [List.append_assoc]

theorem encTail_inj : ∀ (l1 l2 : List ProofStep),
    (∀ s ∈ l1, isHexString s.hash = true) → (∀ s ∈ l2, isHexString s.hash = true) →
    encTail l1 = encTail l2 → l1 = l2 := by
  intro l1
  induction l1 with
  | nil =>
    intro l2 _ _ h
    cases l2 with
    | nil => rfl
    | cons b bs => simp [encTail] at h
  | cons a as ih =>
    intro l2 ha hb h
    cases l2 with
    | nil => simp [encTail] at h
    | cons b bs =>
      simp only [encTail, List.cons.injEq, true_and] at h
      obtain ⟨hstep, htail⟩ := stringifyStep_inj_append a b (encTail as) (encTail bs)
        (ha a (List.mem_cons_self a as)) (hb b (List.mem_cons_self b bs)) h
      have := ih bs (fun s hs => ha s (List.mem_cons_of_mem a hs))
        (fun s hs => hb s (List.mem_cons_of_mem b hs)) htail
      rw [hstep, this]

theorem stringifySteps_inj (l1 l2 : List ProofStep)
    (h1 : ∀ s ∈ l1, isHexString s.hash = true) (h2 : ∀ s ∈ l2, isHexString s.hash = true)
    (h : stringifySteps l1 = stringifySteps l2) : l1 = l2 := by
  have hd : (stringifySteps l1).data = (stringifySteps l2).data := by rw [h]
  cases l1 with
  | nil =>
    cases l2 with
    | nil => rfl
    | cons b bs =>
      rw [stringifySteps_data_nil, stringifySteps_data_cons] at hd
      simp only [List.cons.injEq, true_and] at hd
      rw [stringifyStep_data] at hd
      simp only [List.cons_append, List.append_assoc] at hd
      exact absurd hd (by simp)
  | cons a as =>
    cases l2 with
    | nil =>
      rw [stringifySteps_data_nil, stringifySteps_data_cons] at hd
      simp only [List.cons.injEq, true_and] at hd
      rw [stringifyStep_data] at hd
      simp only [List.cons_append, List.append_assoc] at hd
      exact absurd hd (by simp)
    | cons b bs =>
      rw [stringifySteps_data_cons, stringifySteps_data_cons] at hd
      simp only [List.cons.injEq, true_and] at hd
      obtain ⟨hstep, htail⟩ := stringifyStep_inj_append a b (encTail as) (encTail bs)
        (h1 a (List.mem_cons_self a as)) (h2 b (List.mem_cons_self b bs)) hd
      have := encTail_inj as bs (fun s hs => h1 s (List.mem_cons_of_mem a hs))
        (fun s hs => h2 s (List.mem_cons_of_mem b hs)) htail
      rw [hstep, this]

/-- C9: for every pair of proof artifacts whose step hashes are hex
strings (as the data model types them), the refresh comparison returns
true iff the two artifacts differ in at least one of confirmed,
header_hash, coin_id, root_hash, leaf_hash, or the step sequence — the
sequences compared element-wise with position, hash, and order all
significant (the JSON serialization is injective on such step lists). -/
theorem compareProofs_iff (p q : ProofResponse)
    (hp : ∀ s ∈ p.proof, isHexString s.hash = true)
    (hq : ∀ s ∈ q.proof, isHexString s.hash = true) :
    compareProofs p q = true ↔
      (p.confirmed ≠ q.confirmed ∨ p.header_hash ≠ q.header_hash ∨
        p.coin_id ≠ q.coin_id ∨ p.root_hash ≠ q.root_hash ∨
        p.leaf_hash ≠ q.leaf_hash ∨ p.proof ≠ q.proof) := by
  have key : (stringifySteps p.proof ≠ stringifySteps q.proof) = (p.proof ≠ q.proof) := by
    apply propext
    constructor
    · intro hne heq
      exact hne (by rw [heq])
    · intro hne heq
      exact hne (stringifySteps_inj _ _ hp hq heq)
  unfold compareProofs
  simp only [Bool.or_eq_true, decide_eq_true_eq, key]
  tauto

/-- Witness for C9: two artifacts differing only in one step's
position. -/
def refreshCurrent : ProofResponse :=
  { confirmed := false, header_hash := none, coin_id := none,
    root_hash := "cc", leaf_hash := "dd", proof := [⟨"ab", Position.Left⟩], salt := none }

def refreshCandidate : ProofResponse :=
  { confirmed := false, header_hash := none, coin_id := none,
    root_hash := "cc", leaf_hash := "dd", proof := [⟨"ab", Position.Right⟩], salt := none }

theorem compareProofs_iff_witness :
    (∀ s ∈ refreshCurrent.proof, isHexString s.hash = true) ∧
    (∀ s ∈ refreshCandidate.proof, isHexString s.hash = true) ∧
    (compareProofs refreshCurrent refreshCandidate = true ↔
      (refreshCurrent.confirmed ≠ refreshCandidate.confirmed ∨
        refreshCurrent.header_hash ≠ refreshCandidate.header_hash ∨
        refreshCurrent.coin_id ≠ refreshCandidate.coin_id ∨
        refreshCurrent.root_hash ≠ refreshCandidate.root_hash ∨
        refreshCurrent.leaf_hash ≠ refreshCandidate.leaf_hash ∨
        refreshCurrent.proof ≠ refreshCandidate.proof)) ∧
    compareProofs refreshCurrent refreshCandidate = true :=
  ⟨by decide, by decide,
    compareProofs_iff refreshCurrent refreshCandidate (by decide) (by decide), by decide⟩

end ChiaStamp
